import Mathlib

/-!
Verification of the Apache Thrift Rust protocol codecs
(`lib/rs/src/protocol/compact.rs` and `lib/rs/src/protocol/binary.rs`).

The byte transport is modelled as a list of natural numbers (each a byte
value below 256); a writer emits the list of bytes an operation produces,
and a reader consumes a prefix of its remaining input.  Machine integers
are modelled as `Int`/`Nat` with explicit two's-complement wrapping where
the Rust code can wrap (release-mode semantics).  Fallible operations
return `Except`; a dedicated error constructor `panicked` marks the places
where the Rust code calls `panic!` or `expect` instead of returning an
error.  Rust strings appear as their UTF-8 byte lists; UTF-8 validation is
elided because every byte list a writer produces for a name is the byte
form of a valid Rust string.
-/

namespace Thrift

/-- Two's-complement reinterpretation of an integer as a signed 16-bit
value: models Rust release-mode wrapping `i16` arithmetic. -/
def toI16 (i : Int) : Int := (i + 32768) % 65536 - 32768

/-- The value range of an `i16`. -/
def idOK (i : Int) : Prop := -32768 ≤ i ∧ i < 32768

instance (i : Int) : Decidable (idOK i) := by unfold idOK; infer_instance

/-- Reinterpretation of an `i32` value as a `u32` (the `as u32` cast used
for sequence numbers, lengths and container sizes). -/
def toU32 (i : Int) : Nat := (i % 4294967296).toNat

/-- Reinterpretation of a `u32` value as an `i32` (the `as i32` cast used
when reading raw varints back). -/
def u32ToI32 (n : Nat) : Int :=
  if n % 4294967296 < 2147483648 then ((n % 4294967296 : Nat) : Int)
  else ((n % 4294967296 : Nat) : Int) - 4294967296

/-- Fuel-indexed LEB128 encoder body; the fuel only serves structural
recursion and never runs out when it starts at the encoded value. -/
def varintEncAux : Nat → Nat → List Nat
  | 0, n => [n]
  | fuel + 1, n => if n < 128 then [n] else (n % 128 + 128) :: varintEncAux fuel (n / 128)

/-- Modelled from the spec: LEB128 unsigned varint encoding, the format
produced by the external `integer-encoding` crate's `write_varint`. -/
def varintEnc (n : Nat) : List Nat := varintEncAux n n

/-- Modelled from the spec: LEB128 unsigned varint decoding, the format
consumed by the external `integer-encoding` crate's `read_varint`; returns
the decoded value and the remaining input, or `none` when the input ends
inside the varint. -/
def varintDec : List Nat → Option (Nat × List Nat)
  | [] => none
  | b :: rest =>
    if b < 128 then some (b, rest)
    else
      match varintDec rest with
      | none => none
      | some (v, rem) => some (v * 128 + b % 128, rem)

/-- Modelled from the spec: zig-zag pre-encoding of a signed value
(`(n << 1) ^ (n >> bits-1)`), mapping signed to unsigned before LEB128. -/
def zigzag (i : Int) : Nat := (if 0 ≤ i then 2 * i else -2 * i - 1).toNat

/-- Modelled from the spec: inverse of the zig-zag mapping. -/
def unzigzag (n : Nat) : Int :=
  if n % 2 = 0 then ((n / 2 : Nat) : Int) else -(((n + 1) / 2 : Nat) : Int)

theorem varintDec_varintEncAux :
    ∀ fuel n, n ≤ fuel → ∀ tail, varintDec (varintEncAux fuel n ++ tail) = some (n, tail) := by
  intro fuel
  induction fuel with
  | zero =>
    intro n hn tail
    have : n = 0 := by omega
    subst this
    simp [varintEncAux, varintDec]
  | succ fuel ih =>
    intro n hn tail
    rw [varintEncAux]
    split
    · simp [varintDec, *]
    · rename_i h
      simp only [List.cons_append, varintDec]
      rw [if_neg (by omega)]
      simp only [List.append_eq]
      rw [ih (n / 128) (by omega) tail]
      simp only [Option.some.injEq, Prod.mk.injEq]
      exact ⟨by omega, trivial⟩

theorem varintDec_varintEnc (n : Nat) :
    ∀ tail, varintDec (varintEnc n ++ tail) = some (n, tail) :=
  varintDec_varintEncAux n n le_rfl

theorem unzigzag_zigzag (i : Int) : unzigzag (zigzag i) = i := by
  unfold zigzag unzigzag
  split <;> split <;> omega

theorem toI16_of_idOK {i : Int} (h : idOK i) : toI16 i = i := by
  unfold idOK at h; unfold toI16; omega

theorem toI16_add_toI16 (a b : Int) : toI16 (a + toI16 b) = toI16 (a + b) := by
  unfold toI16; omega

theorem idOK_toI16 (i : Int) : idOK (toI16 i) := by
  unfold idOK toI16; omega

theorem u32ToI32_toU32 {i : Int} (h1 : -2147483648 ≤ i) (h2 : i < 2147483648) :
    u32ToI32 (toU32 i % 4294967296) = i := by
  unfold u32ToI32 toU32; omega

/-- Packing a nibble pair into one byte and taking it apart again, as the
compact codec does for field deltas and collection headers. -/
theorem nibble_unpack :
    ∀ d < 16, ∀ n < 16,
      ((d <<< 4 ||| n) &&& 0xF0) >>> 4 = d ∧ (d <<< 4 ||| n) &&& 0x0F = n := by
  decide

/-- A single nibble seen as a whole byte has an empty high nibble. -/
theorem nibble_alone : ∀ n < 16, (n &&& 0xF0) >>> 4 = 0 ∧ n &&& 0x0F = n := by
  decide

/-- The abstract wire-type enumeration `TType` of `protocol/mod.rs`. -/
inductive TType where
  | stop
  | void
  | bool
  | i08
  | i16
  | i32
  | i64
  | double
  | string
  | struct
  | map
  | set
  | list
  | uuid
  | utf7
deriving DecidableEq, Repr

/-- The kinds of `ProtocolError` the codecs raise.  `panicked` is not a
Rust error kind: it marks the places where the Rust code calls `panic!`
or `expect` (a fatal programmer error) instead of returning an error. -/
inductive PErrKind where
  | badVersion
  | invalidData
  | negativeSize
  | sizeLimit
  | depthLimit
  | unknown
  | transport
  | panicked
deriving DecidableEq, Repr

/-- The four optional safety caps of `TConfiguration`. -/
structure TConfiguration where
  maxMessageSize : Option Nat
  maxContainerSize : Option Nat
  maxStringSize : Option Nat
  maxRecursionDepth : Option Nat
deriving DecidableEq, Repr

/-- The preset that disables all four limits. -/
def noLimits : TConfiguration := ⟨none, none, none, none⟩

/-- Message kinds, `TMessageType` of `protocol/mod.rs`. -/
inductive TMessageType where
  | call
  | reply
  | exception
  | oneWay
deriving DecidableEq, Repr

/-- Modelled from the spec: the `u8` value of each message kind
(`From<TMessageType> for u8` lives in `protocol/mod.rs`, outside the two
source files; the spec gives Call=1, Reply=2, Exception=3, OneWay=4). -/
def messageTypeToU8 : TMessageType → Nat
  | .call => 1
  | .reply => 2
  | .exception => 3
  | .oneWay => 4

/-- Modelled from the spec: the inverse mapping
(`TryFrom<u8> for TMessageType` of `protocol/mod.rs`), unknown bytes
surfacing `InvalidData`. -/
def messageTypeFromU8 (n : Nat) : Except PErrKind TMessageType :=
  if n = 1 then .ok .call
  else if n = 2 then .ok .reply
  else if n = 3 then .ok .exception
  else if n = 4 then .ok .oneWay
  else .error .invalidData

/-- A message identifier; the name is carried as its UTF-8 byte list. -/
structure TMessageIdentifier where
  name : List Nat
  messageType : TMessageType
  sequenceNumber : Int
deriving DecidableEq, Repr

/-- A field identifier as the decoders build it: decoders never populate
the name, so only the wire type and the optional id are modelled. -/
structure TFieldIdentifier where
  fieldType : TType
  id : Option Int
deriving DecidableEq, Repr

/-- Modelled from the spec: `check_container_size` of `protocol/mod.rs`.
A negative declared count is `NegativeSize`; a count above the configured
container cap is `SizeLimit`.  The message-budget clause is omitted: the
remaining-budget value lives in the transport layer, which is out of
scope, and every claim here runs with `max_message_size` unset. -/
def check_container_size (cfg : TConfiguration) (count : Int) : Except PErrKind Unit :=
  if count < 0 then .error .negativeSize
  else
    match cfg.maxContainerSize with
    | some cap => if count > (cap : Int) then .error .sizeLimit else .ok ()
    | none => .ok ()

/-- String/byte-array length check against `max_string_size`. -/
def stringTooBig (cfg : TConfiguration) (len : Nat) : Bool :=
  match cfg.maxStringSize with
  | some m => len > m
  | none => false

end Thrift

namespace Thrift.Compact

/-- Scalar nibble table `type_to_u8` of `compact.rs`; `none` models the
Rust `panic!` on `Bool`, `Void` and `Utf7`. -/
def type_to_u8 : TType → Option Nat
  | .stop => some 0x00
  | .i08 => some 0x03
  | .i16 => some 0x04
  | .i32 => some 0x05
  | .i64 => some 0x06
  | .double => some 0x07
  | .string => some 0x08
  | .list => some 0x09
  | .set => some 0x0A
  | .map => some 0x0B
  | .struct => some 0x0C
  | .uuid => some 0x0D
  | _ => none

/-- Collection nibble table `collection_type_to_u8` of `compact.rs`:
`Bool` maps to `0x01`, everything else to its scalar nibble. -/
def collection_type_to_u8 : TType → Option Nat
  | .bool => some 0x01
  | t => type_to_u8 t

/-- Inverse scalar table `u8_to_type` of `compact.rs`. -/
def u8_to_type (b : Nat) : Except PErrKind TType :=
  if b = 0x00 then .ok .stop
  else if b = 0x03 then .ok .i08
  else if b = 0x04 then .ok .i16
  else if b = 0x05 then .ok .i32
  else if b = 0x06 then .ok .i64
  else if b = 0x07 then .ok .double
  else if b = 0x08 then .ok .string
  else if b = 0x09 then .ok .list
  else if b = 0x0A then .ok .set
  else if b = 0x0B then .ok .map
  else if b = 0x0C then .ok .struct
  else if b = 0x0D then .ok .uuid
  else .error .invalidData

/-- Inverse collection table `collection_u8_to_type` of `compact.rs`:
both `0x01` and `0x02` decode to `Bool` for compatibility. -/
def collection_u8_to_type (b : Nat) : Except PErrKind TType :=
  if b = 0x01 ∨ b = 0x02 then .ok .bool else u8_to_type b

/-- Table `compact_protocol_min_serialized_size` of `compact.rs`. -/
def min_serialized_size : TType → Nat
  | .double => 8
  | .uuid => 16
  | _ => 1

/-- The protocol state of `TCompactOutputProtocol` (the transport is kept
outside: every writer returns the bytes it emits).  The pending bool slot
stores the `id` field of the stashed `TFieldIdentifier`. -/
structure CWriteSt where
  lastWriteFieldId : Int
  writeFieldIdStack : List Int
  pendingWriteBoolFieldIdentifier : Option (Option Int)
deriving DecidableEq, Repr

/-- The state a fresh `TCompactOutputProtocol::new` starts from. -/
def initWriteSt : CWriteSt := ⟨0, [], none⟩

/-- Writer method `write_field_header` of `compact.rs`: short form when
the wrapping `i16` delta is strictly between 0 and 15, else type byte
plus zig-zag varint of the absolute id; always updates the last id. -/
def write_field_header (st : CWriteSt) (fieldType : Nat) (fieldId : Int) :
    List Nat × CWriteSt :=
  let fieldDelta := toI16 (fieldId - st.lastWriteFieldId)
  let bytes :=
    if 0 < fieldDelta ∧ fieldDelta < 15 then
      [(fieldDelta.toNat <<< 4) ||| fieldType]
    else
      fieldType :: varintEnc (zigzag fieldId)
  (bytes, { st with lastWriteFieldId := fieldId })

/-- Writer method `write_field_begin` of `compact.rs`.  A `Bool` field is
stashed in the pending slot (panicking, `none`, when one is already
pending); any other type emits its header at once (panicking when the
type has no nibble or the id is absent). -/
def write_field_begin (st : CWriteSt) (fieldType : TType) (id : Option Int) :
    Option (List Nat × CWriteSt) :=
  if fieldType = .bool then
    if st.pendingWriteBoolFieldIdentifier.isSome then none
    else some ([], { st with pendingWriteBoolFieldIdentifier := some id })
  else
    match type_to_u8 fieldType, id with
    | some tb, some fid => some (write_field_header st tb fid)
    | _, _ => none

/-- Writer method `write_bool` of `compact.rs`: a pending bool field is
emitted as a field header whose nibble is the value (1 true, 2 false);
without a pending field a bare value byte is written. -/
def write_bool (st : CWriteSt) (b : Bool) : Option (List Nat × CWriteSt) :=
  match st.pendingWriteBoolFieldIdentifier with
  | some pendingId =>
    match pendingId with
    | some fid =>
      some (write_field_header
        { st with pendingWriteBoolFieldIdentifier := none }
        (if b then 0x01 else 0x02) fid)
    | none => none
  | none => some ([if b then 0x01 else 0x02], st)

/-- Writer method `write_field_end`: asserts no pending bool. -/
def write_field_end (st : CWriteSt) : Option (List Nat × CWriteSt) :=
  if st.pendingWriteBoolFieldIdentifier.isSome then none else some ([], st)

/-- Writer method `write_field_stop`: asserts no pending bool, then
writes the stop byte. -/
def write_field_stop (st : CWriteSt) : Option (List Nat × CWriteSt) :=
  if st.pendingWriteBoolFieldIdentifier.isSome then none else some ([0x00], st)

/-- Writer method `write_struct_begin`: pushes the last field id and
resets it; emits nothing. -/
def write_struct_begin (st : CWriteSt) : List Nat × CWriteSt :=
  ([], { st with
    writeFieldIdStack := st.lastWriteFieldId :: st.writeFieldIdStack,
    lastWriteFieldId := 0 })

/-- Writer method `write_struct_end`: asserts no pending bool, then pops
the saved field id (panicking on an empty stack). -/
def write_struct_end (st : CWriteSt) : Option (List Nat × CWriteSt) :=
  if st.pendingWriteBoolFieldIdentifier.isSome then none
  else
    match st.writeFieldIdStack with
    | [] => none
    | x :: xs =>
      some ([], { st with lastWriteFieldId := x, writeFieldIdStack := xs })

/-- Writer method `write_message_begin` of `compact.rs`: protocol id
byte, kind-and-version byte, raw (non-zig-zag) varint of the sequence
number reinterpreted as `u32`, then the length-prefixed name.  It touches
no protocol state. -/
def write_message_begin (st : CWriteSt) (ident : TMessageIdentifier) :
    List Nat × CWriteSt :=
  ([0x82, (messageTypeToU8 ident.messageType <<< 5) ||| 0x01]
    ++ varintEnc (toU32 ident.sequenceNumber)
    ++ varintEnc (ident.name.length % 4294967296)
    ++ ident.name, st)

/-- Writer method `write_message_end`: asserts no pending bool. -/
def write_message_end (st : CWriteSt) : Option (List Nat × CWriteSt) :=
  if st.pendingWriteBoolFieldIdentifier.isSome then none else some ([], st)

/-- Writer method `write_list_set_begin` of `compact.rs`: sizes up to 14
pack into the header nibble, larger sizes use nibble 15 plus a raw
(non-zig-zag) varint of the size reinterpreted as `u32`. -/
def write_list_set_begin (st : CWriteSt) (elementType : TType) (elementCount : Int) :
    Option (List Nat × CWriteSt) :=
  match collection_type_to_u8 elementType with
  | none => none
  | some elemId =>
    if elementCount ≤ 14 then
      some ([((((elementCount % 256).toNat <<< 4) % 256) ||| elemId)], st)
    else
      some ((0xF0 ||| elemId) :: varintEnc (toU32 elementCount), st)

/-- The protocol state of `TCompactInputProtocol`, with the remaining
transport bytes inlined as `input`. -/
structure CInState where
  lastReadFieldId : Int
  readFieldIdStack : List Int
  pendingReadBoolValue : Option Bool
  input : List Nat
  config : TConfiguration
  recursionDepth : Nat
deriving DecidableEq, Repr

/-- Reader helper `check_recursion_depth` of `compact.rs`: fails once the
current depth has reached the configured cap. -/
def check_recursion_depth (st : CInState) : Except PErrKind Unit :=
  match st.config.maxRecursionDepth with
  | some limit => if st.recursionDepth ≥ limit then .error .depthLimit else .ok ()
  | none => .ok ()

/-- Reader method `read_struct_begin` of `compact.rs`: depth check first,
then increment the depth, push the last read field id and reset it. -/
def read_struct_begin (st : CInState) : Except PErrKind Unit × CInState :=
  match check_recursion_depth st with
  | .error e => (.error e, st)
  | .ok _ =>
    (.ok (), { st with
      recursionDepth := st.recursionDepth + 1,
      readFieldIdStack := st.lastReadFieldId :: st.readFieldIdStack,
      lastReadFieldId := 0 })

/-- Reader method `read_struct_end` of `compact.rs`: decrement the depth
and pop the saved field id (the Rust `expect` on an empty stack is the
`panicked` outcome). -/
def read_struct_end (st : CInState) : Except PErrKind Unit × CInState :=
  match st.readFieldIdStack with
  | [] => (.error .panicked, st)
  | x :: xs =>
    (.ok (), { st with
      recursionDepth := st.recursionDepth - 1,
      lastReadFieldId := x,
      readFieldIdStack := xs })

/-- Reader method `read_field_begin` of `compact.rs`: one header byte;
nibbles 1 and 2 are a bool field carrying its value (stored in the
pending slot), nibble 0 is the stop field with an absent id, any other
nibble resolves through the scalar table; a non-zero delta nibble adds to
the last read id (wrapping `i16`), a zero delta reads a zig-zag varint
absolute id. -/
def read_field_begin (st : CInState) : Except PErrKind TFieldIdentifier × CInState :=
  match st.input with
  | [] => (.error .transport, st)
  | b :: rest =>
    match (if b &&& 0x0F = 0x01 then
        (Except.ok TType.bool, { st with input := rest, pendingReadBoolValue := some true })
      else if b &&& 0x0F = 0x02 then
        (Except.ok TType.bool, { st with input := rest, pendingReadBoolValue := some false })
      else (u8_to_type (b &&& 0x0F), { st with input := rest })) with
    | (.error e, st2) => (.error e, st2)
    | (.ok ft, st2) =>
      if ft = .stop then (.ok ⟨.stop, none⟩, st2)
      else if (b &&& 0xF0) >>> 4 ≠ 0 then
        (.ok ⟨ft, some (toI16 (st2.lastReadFieldId + (((b &&& 0xF0) >>> 4 : Nat) : Int)))⟩,
          { st2 with lastReadFieldId := toI16 (st2.lastReadFieldId + (((b &&& 0xF0) >>> 4 : Nat) : Int)) })
      else
        match varintDec st2.input with
        | none => (.error .transport, st2)
        | some (v, rest2) =>
          (.ok ⟨ft, some (unzigzag v)⟩,
            { st2 with lastReadFieldId := unzigzag v, input := rest2 })

/-- Reader method `read_bool` of `compact.rs`: a pending value from a
bool field header is returned and cleared without touching the input;
otherwise one byte is read and mapped 0 to false, 1 to true, 2 to false,
anything else to `InvalidData`. -/
def read_bool (st : CInState) : Except PErrKind Bool × CInState :=
  match st.pendingReadBoolValue with
  | some b => (.ok b, { st with pendingReadBoolValue := none })
  | none =>
    match st.input with
    | [] => (.error .transport, st)
    | b :: rest =>
      let st1 := { st with input := rest }
      if b = 0x00 then (.ok false, st1)
      else if b = 0x01 then (.ok true, st1)
      else if b = 0x02 then (.ok false, st1)
      else (.error .invalidData, st1)

/-- Reader method `read_bytes` of `compact.rs`: raw varint length
(`u32`), `SizeLimit` check against `max_string_size` before any buffer of
that size is read, then exactly that many bytes. -/
def read_bytes (st : CInState) : Except PErrKind (List Nat) × CInState :=
  match varintDec st.input with
  | none => (.error .transport, st)
  | some (len0, rest) =>
    let len := len0 % 4294967296
    let st1 := { st with input := rest }
    if stringTooBig st.config len then (.error .sizeLimit, st1)
    else if rest.length < len then (.error .transport, st1)
    else (.ok (rest.take len), { st1 with input := rest.drop len })

/-- Reader method `read_message_begin` of `compact.rs`: protocol id
`0x82`, version nibble 1, message kind from the top three bits, raw
varint sequence number reinterpreted as `i32`, then the name; finally the
last read field id is reset to 0. -/
def read_message_begin (st : CInState) :
    Except PErrKind TMessageIdentifier × CInState :=
  match st.input with
  | [] => (.error .transport, st)
  | b0 :: rest0 =>
    if b0 ≠ 0x82 then (.error .badVersion, { st with input := rest0 })
    else
      match rest0 with
      | [] => (.error .transport, { st with input := rest0 })
      | b1 :: rest1 =>
        if b1 &&& 0x1F ≠ 0x01 then (.error .badVersion, { st with input := rest1 })
        else
          match messageTypeFromU8 (b1 >>> 5) with
          | .error e => (.error e, { st with input := rest1 })
          | .ok mt =>
            match varintDec rest1 with
            | none => (.error .transport, { st with input := rest1 })
            | some (seqRaw, rest2) =>
              let seq := u32ToI32 (seqRaw % 4294967296)
              match read_bytes { st with input := rest2 } with
              | (.error e, st') => (.error e, st')
              | (.ok nameBytes, st') =>
                (.ok ⟨nameBytes, mt, seq⟩, { st' with lastReadFieldId := 0 })

/-- Reader helper `read_list_set_begin` of `compact.rs`: header byte with
element-type nibble and size nibble; size nibble 15 means the size
follows as a raw varint; the size is validated by `check_container_size`
before it is returned. -/
def read_list_set_begin (st : CInState) : Except PErrKind (TType × Int) × CInState :=
  match st.input with
  | [] => (.error .transport, st)
  | header :: rest =>
    let st1 := { st with input := rest }
    match collection_u8_to_type (header &&& 0x0F) with
    | .error e => (.error e, st1)
    | .ok elementType =>
      let possibleElementCount := (header &&& 0xF0) >>> 4
      let counted : Except PErrKind Int × CInState :=
        if possibleElementCount ≠ 15 then
          (.ok (possibleElementCount : Int), st1)
        else
          match varintDec st1.input with
          | none => (.error .transport, st1)
          | some (v, rest2) =>
            (.ok (u32ToI32 (v % 4294967296)), { st1 with input := rest2 })
      match counted with
      | (.error e, st2) => (.error e, st2)
      | (.ok elementCount, st2) =>
        match check_container_size st2.config elementCount with
        | .error e => (.error e, st2)
        | .ok _ => (.ok (elementType, elementCount), st2)

end Thrift.Compact

namespace Thrift.Binary

/-- Binary tag table `field_type_from_u8` of `binary.rs` (tag `0x0B`
always decodes to `String`, never the legacy `Utf7`). -/
def field_type_from_u8 (b : Nat) : Except PErrKind TType :=
  if b = 0x00 then .ok .stop
  else if b = 0x01 then .ok .void
  else if b = 0x02 then .ok .bool
  else if b = 0x03 then .ok .i08
  else if b = 0x04 then .ok .double
  else if b = 0x06 then .ok .i16
  else if b = 0x08 then .ok .i32
  else if b = 0x0A then .ok .i64
  else if b = 0x0B then .ok .string
  else if b = 0x0C then .ok .struct
  else if b = 0x0D then .ok .map
  else if b = 0x0E then .ok .set
  else if b = 0x0F then .ok .list
  else if b = 0x10 then .ok .uuid
  else .error .invalidData

/-- The state of `TBinaryInputProtocol`, with the remaining transport
bytes inlined as `input`. -/
structure BInState where
  strict : Bool
  input : List Nat
  config : TConfiguration
  recursionDepth : Nat
deriving DecidableEq, Repr

/-- Big-endian signed 16-bit value of two bytes. -/
def beI16 (b0 b1 : Nat) : Int :=
  let v := b0 * 256 + b1
  if v < 32768 then (v : Int) else (v : Int) - 65536

/-- Big-endian signed 32-bit value of four bytes. -/
def beI32 (b0 b1 b2 b3 : Nat) : Int :=
  let v := ((b0 * 256 + b1) * 256 + b2) * 256 + b3
  if v < 2147483648 then (v : Int) else (v : Int) - 4294967296

/-- Reader helper `check_recursion_depth` of `binary.rs` (same logic as
the compact one). -/
def check_recursion_depth (st : BInState) : Except PErrKind Unit :=
  match st.config.maxRecursionDepth with
  | some limit => if st.recursionDepth ≥ limit then .error .depthLimit else .ok ()
  | none => .ok ()

/-- Reader method `read_struct_begin` of `binary.rs`: depth check first,
then increment; no bytes are consumed and there is no field-id state. -/
def read_struct_begin (st : BInState) : Except PErrKind Unit × BInState :=
  match check_recursion_depth st with
  | .error e => (.error e, st)
  | .ok _ => (.ok (), { st with recursionDepth := st.recursionDepth + 1 })

/-- Reader method `read_struct_end` of `binary.rs`: decrement. -/
def read_struct_end (st : BInState) : Except PErrKind Unit × BInState :=
  (.ok (), { st with recursionDepth := st.recursionDepth - 1 })

/-- Reader method `read_field_begin` of `binary.rs`: one tag byte; a Stop
tag yields id 0 without reading further (the Rust code passes the
concrete `i16` 0 to `TFieldIdentifier::new`, so the optional id is
populated with `Some(0)`); any other tag is followed by a big-endian
`i16` id. -/
def read_field_begin (st : BInState) : Except PErrKind TFieldIdentifier × BInState :=
  match st.input with
  | [] => (.error .transport, st)
  | b :: rest =>
    match field_type_from_u8 b with
    | .error e => (.error e, { st with input := rest })
    | .ok .stop => (.ok ⟨.stop, some 0⟩, { st with input := rest })
    | .ok ft =>
      match rest with
      | b0 :: b1 :: rest2 =>
        (.ok ⟨ft, some (beI16 b0 b1)⟩, { st with input := rest2 })
      | _ => (.error .transport, { st with input := rest })

/-- Reader method `read_bytes` of `binary.rs`: big-endian `i32` length,
`NegativeSize` for a negative one, `SizeLimit` against
`max_string_size`, then exactly that many bytes. -/
def read_bytes (st : BInState) : Except PErrKind (List Nat) × BInState :=
  match st.input with
  | b0 :: b1 :: b2 :: b3 :: rest =>
    let numBytes := beI32 b0 b1 b2 b3
    let st1 := { st with input := rest }
    if numBytes < 0 then (.error .negativeSize, st1)
    else if stringTooBig st.config numBytes.toNat then (.error .sizeLimit, st1)
    else if rest.length < numBytes.toNat then (.error .transport, st1)
    else (.ok (rest.take numBytes.toNat), { st1 with input := rest.drop numBytes.toNat })
  | _ => (.error .transport, st)

/-- Reader method `read_message_begin` of `binary.rs`.  Four bytes are
read first.  High bit set: strict header, requiring `0x80 0x01`, then a
length-prefixed name (validated by `read_bytes`) and an `i32` sequence.
High bit clear: `BadVersion` in strict mode; in non-strict mode those
four bytes are the name length, reinterpreted `as usize`, and a buffer of
that size is filled with no check against `max_string_size`, followed by
a kind byte and an `i32` sequence. -/
def read_message_begin (st : BInState) :
    Except PErrKind TMessageIdentifier × BInState :=
  match st.input with
  | b0 :: b1 :: b2 :: b3 :: rest =>
    let st1 := { st with input := rest }
    if b0 &&& 0x80 ≠ 0 then
      if b0 = 0x80 ∧ b1 = 0x01 then
        match messageTypeFromU8 b3 with
        | .error e => (.error e, st1)
        | .ok mt =>
          match read_bytes st1 with
          | (.error e, st2) => (.error e, st2)
          | (.ok nameBytes, st2) =>
            match st2.input with
            | s0 :: s1 :: s2 :: s3 :: rest3 =>
              (.ok ⟨nameBytes, mt, beI32 s0 s1 s2 s3⟩, { st2 with input := rest3 })
            | _ => (.error .transport, st2)
      else (.error .badVersion, st1)
    else
      if st.strict then (.error .badVersion, st1)
      else
        let nameSize := (if beI32 b0 b1 b2 b3 < 0 then beI32 b0 b1 b2 b3 + 18446744073709551616
          else beI32 b0 b1 b2 b3).toNat
        if rest.length < nameSize then (.error .transport, st1)
        else
          match rest.drop nameSize with
          | k :: rest2 =>
            match messageTypeFromU8 k with
            | .error e => (.error e, { st1 with input := rest2 })
            | .ok mt =>
              match rest2 with
              | s0 :: s1 :: s2 :: s3 :: rest3 =>
                (.ok ⟨rest.take nameSize, mt, beI32 s0 s1 s2 s3⟩,
                  { st1 with input := rest3 })
              | _ => (.error .transport, { st1 with input := rest2 })
          | [] => (.error .transport, { st1 with input := [] })
  | _ => (.error .transport, st)

end Thrift.Binary

namespace Thrift

/-- A nibble shifted into the high half of a byte stays below 256. -/
theorem shl4_mod256 : ∀ m < 16, (m <<< 4) % 256 = m <<< 4 := by
  decide

/-- Unpacking a byte whose high nibble is 15. -/
theorem f0_or_unpack : ∀ n < 16,
    ((0xF0 ||| n) &&& 0x0F) = n ∧ (((0xF0 ||| n) &&& 0xF0) >>> 4) = 15 := by
  decide

/-- The compact collection tag tables invert each other on every type the
writer can emit. -/
theorem collection_tables_inverse (t : TType) (nib : Nat)
    (h : Compact.collection_type_to_u8 t = some nib) :
    Compact.collection_u8_to_type nib = .ok t ∧ nib < 16 := by
  cases t <;> simp [Compact.collection_type_to_u8, Compact.type_to_u8] at h <;>
    subst h <;> exact ⟨rfl, by decide⟩

/-- C1 (amended): for a non-Bool compact field write, the short
single-byte form `(delta <<< 4) ||| type_nibble` is used exactly when the
wrapping `i16` delta between the field id and the previous field id lies
in `[1, 14]`; for a delta of 0 or below, or of 15 and above, the long
form — the type byte followed by a zig-zag varint of the absolute id — is
used.  The last written field id becomes the new field id either way. -/
theorem compact_field_header_form (wst : Compact.CWriteSt) (nib : Nat) (fid : Int) :
    (1 ≤ toI16 (fid - wst.lastWriteFieldId) ∧ toI16 (fid - wst.lastWriteFieldId) ≤ 14 →
      Compact.write_field_header wst nib fid =
        ([(toI16 (fid - wst.lastWriteFieldId)).toNat <<< 4 ||| nib],
          { wst with lastWriteFieldId := fid })) ∧
    (toI16 (fid - wst.lastWriteFieldId) ≤ 0 ∨ 15 ≤ toI16 (fid - wst.lastWriteFieldId) →
      Compact.write_field_header wst nib fid =
        (nib :: varintEnc (zigzag fid), { wst with lastWriteFieldId := fid })) := by
  constructor
  · intro h
    simp only [Compact.write_field_header]
    rw [if_pos (by omega)]
  · intro h
    simp only [Compact.write_field_header]
    rw [if_neg (by omega)]

/-- C1 witness: writing field id 3 after field id 0 (delta 3, nibble 5)
emits the single short-form byte 0x35. -/
theorem compact_field_header_form_witness :
    Compact.write_field_header Compact.initWriteSt 0x05 3 =
      ([0x35], { Compact.initWriteSt with lastWriteFieldId := 3 }) := by
  have h := (compact_field_header_form Compact.initWriteSt 0x05 3).1 (by decide)
  exact h.trans (by decide)

/-- C1 counterexample: with previous field id 0, writing field id 15
(delta 15, nibble 5) does not produce the short-form byte 0xF5 the claim
predicts; the encoder emits the long form 0x05 0x1E. -/
theorem compact_field_header_delta15_cex :
    (Compact.write_field_header Compact.initWriteSt 0x05 15).1 = [0x05, 0x1E] ∧
    (Compact.write_field_header Compact.initWriteSt 0x05 15).1 ≠ [0xF5] := by
  exact ⟨rfl, by decide⟩

/-- C7 (confirmed): compact `read_bool` returns and clears a pending bool
value without consuming input; with no pending value it consumes exactly
one byte and maps 0 to false, 1 to true, 2 to false and everything else
to `InvalidData`. -/
theorem compact_read_bool_spec (st : Compact.CInState) :
    (∀ b, st.pendingReadBoolValue = some b →
      Compact.read_bool st = (.ok b, { st with pendingReadBoolValue := none })) ∧
    (st.pendingReadBoolValue = none → ∀ b rest, st.input = b :: rest →
      Compact.read_bool st =
        ((if b = 0x00 then .ok false
          else if b = 0x01 then .ok true
          else if b = 0x02 then .ok false
          else .error .invalidData), { st with input := rest })) := by
  constructor
  · intro b hb
    simp [Compact.read_bool, hb]
  · intro hp b rest hin
    simp only [Compact.read_bool, hp, hin]
    split
    · rfl
    · split
      · rfl
      · split
        · rfl
        · rfl

/-- C7 witness: a pending true is returned and cleared; byte 5 with no
pending value is `InvalidData`. -/
theorem compact_read_bool_spec_witness :
    Compact.read_bool ⟨0, [], some true, [], noLimits, 0⟩ =
      (.ok true, ⟨0, [], none, [], noLimits, 0⟩) ∧
    Compact.read_bool ⟨0, [], none, [5], noLimits, 0⟩ =
      (.error .invalidData, ⟨0, [], none, [], noLimits, 0⟩) := by
  constructor
  · exact (compact_read_bool_spec _).1 true rfl
  · exact ((compact_read_bool_spec _).2 rfl 5 [] rfl).trans rfl

/-- C8 (confirmed): while a bool field identifier is pending in the
compact encoder, `write_field_end`, `write_field_stop`,
`write_struct_end` and `write_message_end` all panic (modelled as
`none`), and beginning another bool field panics as well, so at most one
bool field is ever pending. -/
theorem compact_writer_pending_bool_fatal (st : Compact.CWriteSt) (pid : Option Int)
    (hp : st.pendingWriteBoolFieldIdentifier = some pid) :
    Compact.write_field_end st = none ∧
    Compact.write_field_stop st = none ∧
    Compact.write_struct_end st = none ∧
    Compact.write_message_end st = none ∧
    (∀ oid, Compact.write_field_begin st .bool oid = none) := by
  simp [Compact.write_field_end, Compact.write_field_stop, Compact.write_struct_end,
    Compact.write_message_end, Compact.write_field_begin, hp]

/-- C8 witness: a concrete state with a pending bool field of id 1. -/
theorem compact_writer_pending_bool_fatal_witness :
    Compact.write_field_end ⟨0, [], some (some 1)⟩ = none ∧
    Compact.write_field_stop ⟨0, [], some (some 1)⟩ = none ∧
    Compact.write_struct_end ⟨0, [], some (some 1)⟩ = none ∧
    Compact.write_message_end ⟨0, [], some (some 1)⟩ = none ∧
    Compact.write_field_begin ⟨0, [], some (some 1)⟩ .bool (some 2) = none := by
  have h := compact_writer_pending_bool_fatal ⟨0, [], some (some 1)⟩ (some 1) rfl
  exact ⟨h.1, h.2.1, h.2.2.1, h.2.2.2.1, h.2.2.2.2 (some 2)⟩

/-- C5 counterexample: the binary decoder reading a Stop tag returns a
field identifier whose id is `Some 0`, not an absent id as the claim
states for both decoders. -/
theorem binary_stop_field_id_cex :
    Binary.read_field_begin ⟨true, [0x00], noLimits, 0⟩ =
      (.ok ⟨.stop, some 0⟩, ⟨true, [], noLimits, 0⟩) ∧
    some (0 : Int) ≠ (none : Option Int) :=
  ⟨rfl, by decide⟩

/-- C5 (amended): the compact decoder returns an absent id exactly for a
Stop tag and a present id for every non-Stop tag; the binary decoder
always returns a present id — `Some 0` for a Stop tag and the decoded
`i16` for every other tag. -/
theorem read_field_begin_stop_id (cst : Compact.CInState) (bst : Binary.BInState) :
    (∀ fid st', Compact.read_field_begin cst = (.ok fid, st') →
      (fid.fieldType = .stop ↔ fid.id = none)) ∧
    (∀ fid st', Binary.read_field_begin bst = (.ok fid, st') →
      (fid.fieldType = .stop → fid.id = some 0) ∧ fid.id.isSome = true) := by
  constructor
  · intro fid st' h
    unfold Compact.read_field_begin at h
    split at h
    · simp at h
    · split at h
      · simp at h
      · split at h
        · simp only [Prod.mk.injEq, Except.ok.injEq] at h
          rw [← h.1]
          simp
        · rename_i hft
          split at h
          · simp only [Prod.mk.injEq, Except.ok.injEq] at h
            rw [← h.1]
            simp_all
          · split at h
            · simp at h
            · simp only [Prod.mk.injEq, Except.ok.injEq] at h
              rw [← h.1]
              simp_all
  · intro fid st' h
    unfold Binary.read_field_begin at h
    split at h
    · simp at h
    · split at h
      · simp at h
      · simp only [Prod.mk.injEq, Except.ok.injEq] at h
        rw [← h.1]
        simp
      · split at h
        · simp only [Prod.mk.injEq, Except.ok.injEq] at h
          rw [← h.1]
          simp_all
        · simp at h

/-- C5 witness: a Stop byte for the compact decoder and an I32 field
header for the binary decoder. -/
theorem read_field_begin_stop_id_witness :
    Compact.read_field_begin ⟨0, [], none, [0x00], noLimits, 0⟩ =
      (.ok ⟨.stop, none⟩, ⟨0, [], none, [], noLimits, 0⟩) ∧
    ((⟨.stop, none⟩ : TFieldIdentifier).fieldType = .stop ↔
      (⟨.stop, none⟩ : TFieldIdentifier).id = none) ∧
    Binary.read_field_begin ⟨true, [0x08, 0x00, 0x16], noLimits, 0⟩ =
      (.ok ⟨.i32, some 22⟩, ⟨true, [], noLimits, 0⟩) ∧
    Option.isSome (some (22 : Int)) = true := by
  refine ⟨rfl, (read_field_begin_stop_id ⟨0, [], none, [0x00], noLimits, 0⟩
    ⟨true, [0x08, 0x00, 0x16], noLimits, 0⟩).1 _ _ rfl, rfl, ?_⟩
  exact ((read_field_begin_stop_id ⟨0, [], none, [0x00], noLimits, 0⟩
    ⟨true, [0x08, 0x00, 0x16], noLimits, 0⟩).2 ⟨.i32, some 22⟩ _ rfl).2

/-- C9 (confirmed): a compact list or set begin with non-negative size s
emits the single byte `(s <<< 4) ||| nibble` when `s ≤ 14` and the byte
`0xF0 ||| nibble` followed by a raw (non-zig-zag) varint of s otherwise,
and the decoder recovers the element type and size from either form. -/
theorem compact_list_set_header_roundtrip
    (t : TType) (nib : Nat) (s : Int) (wst : Compact.CWriteSt)
    (rst : Compact.CInState) (tail : List Nat)
    (htab : Compact.collection_type_to_u8 t = some nib)
    (hs0 : 0 ≤ s) (hs1 : s < 2147483648)
    (hcfg : rst.config = noLimits) :
    ∃ bytes, Compact.write_list_set_begin wst t s = some (bytes, wst) ∧
      (s ≤ 14 → bytes = [s.toNat <<< 4 ||| nib]) ∧
      (14 < s → bytes = (0xF0 ||| nib) :: varintEnc s.toNat) ∧
      (rst.input = bytes ++ tail →
        Compact.read_list_set_begin rst = (.ok (t, s), { rst with input := tail })) := by
  obtain ⟨hinv, hnib⟩ := collection_tables_inverse t nib htab
  by_cases hle : s ≤ 14
  · refine ⟨[s.toNat <<< 4 ||| nib], ?_, fun _ => rfl, fun hgt => absurd hle (by omega), ?_⟩
    · unfold Compact.write_list_set_begin
      simp only [htab]
      rw [if_pos hle]
      have h256 : (s % 256).toNat = s.toNat := by omega
      rw [h256, shl4_mod256 s.toNat (by omega)]
    · intro hin
      unfold Compact.read_list_set_begin
      rw [hin]
      simp only [List.cons_append, List.nil_append]
      have hlt : s.toNat < 16 := by omega
      obtain ⟨hhi, hlo⟩ := nibble_unpack s.toNat hlt nib hnib
      rw [hlo, hinv]
      simp only [hhi]
      rw [if_pos (by omega)]
      have hcnt : ((s.toNat : Nat) : Int) = s := by omega
      simp only [hcnt]
      unfold check_container_size
      rw [if_neg (by omega), hcfg]
      rfl
  · refine ⟨(0xF0 ||| nib) :: varintEnc s.toNat, ?_, fun hle2 => absurd hle2 (by omega),
      fun _ => rfl, ?_⟩
    · unfold Compact.write_list_set_begin
      simp only [htab]
      rw [if_neg hle]
      have : toU32 s = s.toNat := by unfold toU32; omega
      rw [this]
    · intro hin
      unfold Compact.read_list_set_begin
      rw [hin]
      simp only [List.cons_append]
      obtain ⟨hlo, hhi⟩ := f0_or_unpack nib hnib
      rw [hlo, hinv]
      simp only [hhi]
      rw [if_neg (by omega)]
      simp only [varintDec_varintEnc s.toNat tail]
      have : u32ToI32 (s.toNat % 4294967296) = s := by unfold u32ToI32; omega
      rw [this]
      unfold check_container_size
      rw [if_neg (by omega), hcfg]
      rfl

/-- C9 witness: a List-of-List of size 9999 produces exactly the bytes
F9 8F 4E, and the decoder recovers (List, 9999). -/
theorem compact_list_set_header_roundtrip_witness :
    ∃ bytes, Compact.write_list_set_begin Compact.initWriteSt .list 9999 =
        some (bytes, Compact.initWriteSt) ∧
      bytes = [0xF9, 0x8F, 0x4E] ∧
      Compact.read_list_set_begin ⟨0, [], none, [0xF9, 0x8F, 0x4E], noLimits, 0⟩ =
        (.ok (.list, 9999), ⟨0, [], none, [], noLimits, 0⟩) := by
  obtain ⟨bytes, h1, _, h3, h4⟩ := compact_list_set_header_roundtrip .list 9 9999
    Compact.initWriteSt ⟨0, [], none, [0xF9, 0x8F, 0x4E], noLimits, 0⟩ []
    rfl (by decide) (by decide) rfl
  have hb : bytes = [0xF9, 0x8F, 0x4E] := (h3 (by decide)).trans rfl
  refine ⟨bytes, h1, hb, ?_⟩
  have := h4 (by rw [hb]; rfl)
  exact this.trans rfl

/-- C10 (confirmed): compact `write_message_begin` only emits the
envelope bytes, leaving the last written field id, the field-id stack and
the pending-bool slot untouched, while the decoder resets its last read
field id to 0 whenever `read_message_begin` succeeds. -/
theorem compact_message_begin_frame (wst : Compact.CWriteSt) (ident : TMessageIdentifier) :
    (Compact.write_message_begin wst ident).2 = wst ∧
    (∀ (rst : Compact.CInState) mi st',
      Compact.read_message_begin rst = (.ok mi, st') → st'.lastReadFieldId = 0) := by
  constructor
  · rfl
  · intro rst mi st' h
    unfold Compact.read_message_begin at h
    split at h
    · simp at h
    · split at h
      · simp at h
      · split at h
        · simp at h
        · split at h
          · simp at h
          · split at h
            · simp at h
            · split at h
              · simp at h
              · split at h
                · simp at h
                · simp only [Prod.mk.injEq, Except.ok.injEq] at h
                  rw [← h.2]

/-- C10 witness: a concrete envelope for which the decoder succeeds. -/
theorem compact_message_begin_frame_witness :
    (Compact.write_message_begin Compact.initWriteSt ⟨[], .call, 0⟩).2 = Compact.initWriteSt ∧
    (⟨0, [], none, [], noLimits, 0⟩ : Compact.CInState).lastReadFieldId = 0 := by
  refine ⟨(compact_message_begin_frame Compact.initWriteSt ⟨[], .call, 0⟩).1, ?_⟩
  exact (compact_message_begin_frame Compact.initWriteSt ⟨[], .call, 0⟩).2
    ⟨7, [], none, [0x82, 0x21, 0x00, 0x00], noLimits, 0⟩ ⟨[], .call, 0⟩
    ⟨0, [], none, [], noLimits, 0⟩ rfl

/-- Reading back a length-prefixed byte string the compact writer
produced yields the bytes and leaves the trailing input. -/
theorem compact_read_bytes_enc (name tail : List Nat) (st : Compact.CInState)
    (hname : name.length < 4294967296)
    (hcfg : st.config.maxStringSize = none)
    (hin : st.input = varintEnc (name.length % 4294967296) ++ (name ++ tail)) :
    Compact.read_bytes st = (.ok name, { st with input := tail }) := by
  unfold Compact.read_bytes
  rw [hin]
  simp only [varintDec_varintEnc]
  simp only [stringTooBig, hcfg]
  have hlen : name.length % 4294967296 % 4294967296 = name.length := by omega
  rw [hlen]
  rw [if_neg (by simp)]
  rw [if_neg (by simp)]
  simp

/-- Driver that calls the compact `read_struct_begin` n times in a row,
stopping at the first failure. -/
def Compact.iterStructBegin : Nat → Compact.CInState → Except PErrKind Unit × Compact.CInState
  | 0, st => (.ok (), st)
  | n + 1, st =>
    match Compact.read_struct_begin st with
    | (.error e, st') => (.error e, st')
    | (.ok _, st') => Compact.iterStructBegin n st'

/-- Driver that calls the binary `read_struct_begin` n times in a row,
stopping at the first failure. -/
def Binary.iterStructBegin : Nat → Binary.BInState → Except PErrKind Unit × Binary.BInState
  | 0, st => (.ok (), st)
  | n + 1, st =>
    match Binary.read_struct_begin st with
    | (.error e, st') => (.error e, st')
    | (.ok _, st') => Binary.iterStructBegin n st'

theorem compact_iter_ok (k : Nat) :
    ∀ (st : Compact.CInState) cap, st.config.maxRecursionDepth = some cap →
      st.recursionDepth + k ≤ cap →
      ∃ st', Compact.iterStructBegin k st = (.ok (), st') ∧
        st'.recursionDepth = st.recursionDepth + k ∧ st'.config = st.config := by
  induction k with
  | zero => intro st cap h1 h2; exact ⟨st, rfl, rfl, rfl⟩
  | succ k ih =>
    intro st cap h1 h2
    have hstep : Compact.read_struct_begin st =
        (.ok (), { st with
          recursionDepth := st.recursionDepth + 1,
          readFieldIdStack := st.lastReadFieldId :: st.readFieldIdStack,
          lastReadFieldId := 0 }) := by
      unfold Compact.read_struct_begin Compact.check_recursion_depth
      simp only [h1]
      rw [if_neg (by omega)]
    obtain ⟨st', he, hd, hc⟩ := ih { st with
        recursionDepth := st.recursionDepth + 1,
        readFieldIdStack := st.lastReadFieldId :: st.readFieldIdStack,
        lastReadFieldId := 0 } cap h1 (by simpa using by omega)
    refine ⟨st', ?_, by simp at hd; omega, by simpa using hc⟩
    unfold Compact.iterStructBegin
    rw [hstep]
    exact he

theorem binary_iter_ok (k : Nat) :
    ∀ (st : Binary.BInState) cap, st.config.maxRecursionDepth = some cap →
      st.recursionDepth + k ≤ cap →
      ∃ st', Binary.iterStructBegin k st = (.ok (), st') ∧
        st'.recursionDepth = st.recursionDepth + k ∧ st'.config = st.config := by
  induction k with
  | zero => intro st cap h1 h2; exact ⟨st, rfl, rfl, rfl⟩
  | succ k ih =>
    intro st cap h1 h2
    have hstep : Binary.read_struct_begin st =
        (.ok (), { st with recursionDepth := st.recursionDepth + 1 }) := by
      unfold Binary.read_struct_begin Binary.check_recursion_depth
      simp only [h1]
      rw [if_neg (by omega)]
    obtain ⟨st', he, hd, hc⟩ := ih { st with recursionDepth := st.recursionDepth + 1 }
      cap h1 (by simpa using by omega)
    refine ⟨st', ?_, by simp at hd; omega, by simpa using hc⟩
    unfold Binary.iterStructBegin
    rw [hstep]
    exact he

/-- C4 (confirmed): with `max_recursion_depth = cap` and depth 0, exactly
cap consecutive `read_struct_begin` calls succeed in both decoders,
reaching depth cap, and the next call returns a DepthLimit error with the
decoder state unchanged (the depth is compared to the cap before the
increment). -/
theorem depth_limit_exact (cap : Nat) (cst : Compact.CInState) (bst : Binary.BInState)
    (hc1 : cst.config.maxRecursionDepth = some cap) (hc2 : cst.recursionDepth = 0)
    (hb1 : bst.config.maxRecursionDepth = some cap) (hb2 : bst.recursionDepth = 0) :
    (∃ st', Compact.iterStructBegin cap cst = (.ok (), st') ∧
      st'.recursionDepth = cap ∧
      Compact.read_struct_begin st' = (.error .depthLimit, st')) ∧
    (∃ st', Binary.iterStructBegin cap bst = (.ok (), st') ∧
      st'.recursionDepth = cap ∧
      Binary.read_struct_begin st' = (.error .depthLimit, st')) := by
  constructor
  · obtain ⟨st', he, hd, hc⟩ := compact_iter_ok cap cst cap hc1 (by omega)
    refine ⟨st', he, by omega, ?_⟩
    unfold Compact.read_struct_begin Compact.check_recursion_depth
    simp only [hc, hc1]
    rw [if_pos (by omega)]
  · obtain ⟨st', he, hd, hc⟩ := binary_iter_ok cap bst cap hb1 (by omega)
    refine ⟨st', he, by omega, ?_⟩
    unfold Binary.read_struct_begin Binary.check_recursion_depth
    simp only [hc, hb1]
    rw [if_pos (by omega)]

/-- C4 witness: cap 2 from fresh decoder states. -/
theorem depth_limit_exact_witness :
    (∃ st', Compact.iterStructBegin 2 ⟨0, [], none, [], ⟨none, none, none, some 2⟩, 0⟩ =
        (.ok (), st') ∧ st'.recursionDepth = 2 ∧
      Compact.read_struct_begin st' = (.error .depthLimit, st')) ∧
    (∃ st', Binary.iterStructBegin 2 ⟨true, [], ⟨none, none, none, some 2⟩, 0⟩ =
        (.ok (), st') ∧ st'.recursionDepth = 2 ∧
      Binary.read_struct_begin st' = (.error .depthLimit, st')) :=
  depth_limit_exact 2 ⟨0, [], none, [], ⟨none, none, none, some 2⟩, 0⟩
    ⟨true, [], ⟨none, none, none, some 2⟩, 0⟩ rfl rfl rfl rfl

/-- C2 (confirmed): for every i32 sequence number, a compact message
envelope written by `write_message_begin` decodes via
`read_message_begin` to the identical identifier — in particular the
sequence number, written as a raw non-zig-zag varint of its u32
reinterpretation, round-trips through two's complement. -/
theorem compact_message_seq_roundtrip
    (seq : Int) (name : List Nat) (mt : TMessageType)
    (wst : Compact.CWriteSt) (tail : List Nat) (rst : Compact.CInState)
    (h1 : -2147483648 ≤ seq) (h2 : seq < 2147483648)
    (hname : name.length < 4294967296)
    (hcfg : rst.config.maxStringSize = none)
    (hin : rst.input = (Compact.write_message_begin wst ⟨name, mt, seq⟩).1 ++ tail) :
    Compact.read_message_begin rst =
      (.ok ⟨name, mt, seq⟩, { rst with input := tail, lastReadFieldId := 0 }) := by
  have hmt1 : ((messageTypeToU8 mt <<< 5) ||| 0x01) &&& 0x1F = 0x01 := by
    cases mt <;> rfl
  have hmt2 : messageTypeFromU8 (((messageTypeToU8 mt <<< 5) ||| 0x01) >>> 5) = .ok mt := by
    cases mt <;> rfl
  simp only [Compact.write_message_begin] at hin
  unfold Compact.read_message_begin
  rw [hin]
  simp only [List.cons_append, List.append_assoc]
  rw [if_neg (by decide)]
  simp only [hmt1]
  rw [if_neg (by decide)]
  simp only [hmt2]
  simp only [List.nil_append]
  simp only [varintDec_varintEnc]
  rw [compact_read_bytes_enc name tail
    { rst with input := varintEnc (name.length % 4294967296) ++ (name ++ tail) }
    hname hcfg rfl]
  rw [u32ToI32_toU32 h1 h2]

/-- C2 witness: the spec's reference vector 6 — a Reply named "bar" with
sequence i32::MIN decodes from 82 41 80 80 80 80 08 03 62 61 72. -/
theorem compact_message_seq_roundtrip_witness :
    Compact.read_message_begin
      ⟨5, [7], some true,
        [0x82, 0x41, 0x80, 0x80, 0x80, 0x80, 0x08, 0x03, 0x62, 0x61, 0x72], noLimits, 0⟩ =
      (.ok ⟨[0x62, 0x61, 0x72], .reply, -2147483648⟩,
        ⟨0, [7], some true, [], noLimits, 0⟩) :=
  compact_message_seq_roundtrip (-2147483648) [0x62, 0x61, 0x72] .reply
    Compact.initWriteSt []
    ⟨5, [7], some true,
      [0x82, 0x41, 0x80, 0x80, 0x80, 0x80, 0x08, 0x03, 0x62, 0x61, 0x72], noLimits, 0⟩
    (by decide) (by decide) (by decide) rfl rfl

/-- C6 (code_bug): in binary non-strict mode, four header bytes decoding
to name length 8 under `max_string_size = 4` do not produce a SizeLimit
error: the decoder reads the 8 name bytes with no size check and returns
the message identifier, contradicting the validate-before-allocate
rule the spec states. -/
theorem binary_nonstrict_name_skips_size_limit :
    Binary.read_message_begin
      ⟨false, [0x00, 0x00, 0x00, 0x08] ++ List.replicate 8 0x61 ++ [0x01, 0x00, 0x00, 0x00, 0x2A],
        ⟨none, none, some 4, none⟩, 0⟩ =
      (.ok ⟨List.replicate 8 0x61, .call, 42⟩,
        ⟨false, [], ⟨none, none, some 4, none⟩, 0⟩) ∧
    (Binary.read_message_begin
      ⟨false, [0x00, 0x00, 0x00, 0x08] ++ List.replicate 8 0x61 ++ [0x01, 0x00, 0x00, 0x00, 0x2A],
        ⟨none, none, some 4, none⟩, 0⟩).1 ≠ .error .sizeLimit :=
  ⟨rfl, fun h => nomatch h⟩

mutual
/-- The shape of a struct body driven through the codec: a sequence of
fields, each a non-Bool scalar-like field (only its header matters at
this level; value bytes round-trip independently of the field-id
machinery), a Bool field carrying its value (the value lives in the
field header itself), or a nested struct field.  Mirrors the begin/end
call sequences thrift-generated code issues. -/
inductive FieldTree where
  | scalar (t : TType) (id : Int)
  | boolField (v : Bool) (id : Int)
  | nested (id : Int) (fs : FieldForest)

inductive FieldForest where
  | nil
  | cons (f : FieldTree) (fs : FieldForest)
end

/-- Types a `FieldTree.scalar` node may carry: every compact type nibble
except Stop (reserved), Bool (handled by `boolField`) and Struct (handled
by `nested`). -/
def isScalarType : TType → Bool
  | .i08 | .i16 | .i32 | .i64 | .double | .string | .list | .set | .map | .uuid => true
  | _ => false

mutual
/-- Validity of one field: scalar types from the scalar set, ids in the
`i16` range. -/
def validTree : FieldTree → Bool
  | .scalar t id => isScalarType t && decide (idOK id)
  | .boolField _ id => decide (idOK id)
  | .nested id fs => decide (idOK id) && validForest fs
termination_by structural f => f

/-- Validity of a whole struct body. -/
def validForest : FieldForest → Bool
  | .nil => true
  | .cons f fs => validTree f && validForest fs
termination_by structural fs => fs
end

mutual
/-- Decoder fuel consumed by one field. -/
def needFuelT : FieldTree → Nat
  | .scalar _ _ => 0
  | .boolField _ _ => 0
  | .nested _ fs => 1 + needFuelF fs
termination_by structural f => f

/-- Decoder fuel consumed by a struct body. -/
def needFuelF : FieldForest → Nat
  | .nil => 0
  | .cons f fs => 1 + needFuelT f + needFuelF fs
termination_by structural fs => fs
end

namespace Compact

mutual
/-- Drives the compact encoder through one field: `write_field_begin`,
the bool value via `write_bool` when the field is a Bool, a full nested
struct (struct begin, body, field stop, struct end) when it is a struct,
then `write_field_end`.  `read_field_end`/`write_field_end` emit nothing;
scalar value bytes are elided as independent of the header machinery. -/
def encTree : CWriteSt → FieldTree → Option (List Nat × CWriteSt)
  | st, .scalar t id =>
    match write_field_begin st t (some id) with
    | none => none
    | some (b1, st1) =>
      match write_field_end st1 with
      | none => none
      | some (b2, st2) => some (b1 ++ b2, st2)
  | st, .boolField v id =>
    match write_field_begin st .bool (some id) with
    | none => none
    | some (b1, st1) =>
      match write_bool st1 v with
      | none => none
      | some (b2, st2) =>
        match write_field_end st2 with
        | none => none
        | some (b3, st3) => some (b1 ++ b2 ++ b3, st3)
  | st, .nested id fs =>
    match write_field_begin st .struct (some id) with
    | none => none
    | some (b1, st1) =>
      match write_struct_begin st1 with
      | (b2, st2) =>
        match encForest st2 fs with
        | none => none
        | some (b3, st3) =>
          match write_field_stop st3 with
          | none => none
          | some (b4, st4) =>
            match write_struct_end st4 with
            | none => none
            | some (b5, st5) =>
              match write_field_end st5 with
              | none => none
              | some (b6, st6) => some (b1 ++ b2 ++ b3 ++ b4 ++ b5 ++ b6, st6)
termination_by structural _st f => f

/-- Drives the compact encoder through a struct body, field by field. -/
def encForest : CWriteSt → FieldForest → Option (List Nat × CWriteSt)
  | st, .nil => some ([], st)
  | st, .cons f fs =>
    match encTree st f with
    | none => none
    | some (b1, st1) =>
      match encForest st1 fs with
      | none => none
      | some (b2, st2) => some (b1 ++ b2, st2)
termination_by structural _st fs => fs
end

/-- Drives the compact decoder through a struct body: read field headers
until a Stop header, consuming a pending bool for a Bool field and
recursing (struct begin, body, struct end) for a Struct field, rebuilding
the tree that was encoded.  The fuel only bounds recursion depth. -/
def decForest : Nat → CInState → Except PErrKind FieldForest × CInState
  | 0, st => (.error .transport, st)
  | fuel + 1, st =>
    match read_field_begin st with
    | (.error e, st') => (.error e, st')
    | (.ok fid, st') =>
      if fid.fieldType = .stop then (.ok .nil, st')
      else if fid.fieldType = .bool then
        match read_bool st' with
        | (.error e, st2) => (.error e, st2)
        | (.ok v, st2) =>
          match decForest fuel st2 with
          | (.error e, st3) => (.error e, st3)
          | (.ok rest, st3) => (.ok (.cons (.boolField v (fid.id.getD 0)) rest), st3)
      else if fid.fieldType = .struct then
        match read_struct_begin st' with
        | (.error e, st2) => (.error e, st2)
        | (.ok _, st2) =>
          match decForest fuel st2 with
          | (.error e, st3) => (.error e, st3)
          | (.ok inner, st3) =>
            match read_struct_end st3 with
            | (.error e, st4) => (.error e, st4)
            | (.ok _, st4) =>
              match decForest fuel st4 with
              | (.error e, st5) => (.error e, st5)
              | (.ok rest, st5) => (.ok (.cons (.nested (fid.id.getD 0) inner) rest), st5)
      else
        match decForest fuel st' with
        | (.error e, st2) => (.error e, st2)
        | (.ok rest, st2) => (.ok (.cons (.scalar fid.fieldType (fid.id.getD 0)) rest), st2)

/-- Encodes a whole struct: `write_struct_begin`, the body, the stop
byte, `write_struct_end`. -/
def encodeStruct (wst : CWriteSt) (ts : FieldForest) : Option (List Nat × CWriteSt) :=
  match write_struct_begin wst with
  | (b0, st0) =>
    match encForest st0 ts with
    | none => none
    | some (b1, st1) =>
      match write_field_stop st1 with
      | none => none
      | some (b2, st2) =>
        match write_struct_end st2 with
        | none => none
        | some (b3, st3) => some (b0 ++ b1 ++ b2 ++ b3, st3)

/-- Decodes a whole struct: `read_struct_begin`, the body up to its Stop
header, `read_struct_end`. -/
def decodeStruct (fuel : Nat) (st : CInState) : Except PErrKind FieldForest × CInState :=
  match read_struct_begin st with
  | (.error e, st') => (.error e, st')
  | (.ok _, st') =>
    match decForest fuel st' with
    | (.error e, st2) => (.error e, st2)
    | (.ok ts, st2) =>
      match read_struct_end st2 with
      | (.error e, st3) => (.error e, st3)
      | (.ok _, st3) => (.ok ts, st3)

end Compact

/-- Scalar-table facts: every scalar-set type has a nibble in [3,13] that
the reader's table maps back to it. -/
theorem scalar_type_facts (t : TType) (h : isScalarType t = true) :
    ∃ nib, Compact.type_to_u8 t = some nib ∧ Compact.u8_to_type nib = .ok t ∧
      3 ≤ nib ∧ nib ≤ 13 ∧ t ≠ .stop ∧ t ≠ .bool ∧ t ≠ .struct := by
  cases t <;>
    first
      | exact absurd h (by decide)
      | exact ⟨_, rfl, rfl, by decide, by decide, by decide, by decide, by decide⟩

/-- Pending-slot update a compact field header byte with the given type
nibble performs on the decoder (nibbles 1 and 2 carry a bool value). -/
def pendUpd (nib : Nat) (p : Option Bool) : Option Bool :=
  if nib = 1 then some true else if nib = 2 then some false else p

/-- Writing one compact field header and reading it back: the header
produced by `write_field_header` with a non-zero nibble below 16 decodes
through `read_field_begin` to the written type and the absolute field id,
advancing the decoder's last read field id in lockstep with the encoder's
last written field id. -/
theorem field_header_roundtrip (wst : Compact.CWriteSt) (nib : Nat) (fid : Int) (T : TType)
    (hn0 : nib ≠ 0) (hn : nib < 16)
    (hT : (if nib = 1 then Except.ok TType.bool
           else if nib = 2 then Except.ok TType.bool
           else Compact.u8_to_type nib) = .ok T)
    (hTs : T ≠ .stop)
    (hw : idOK wst.lastWriteFieldId) (hf : idOK fid) :
    ∃ bytes,
      Compact.write_field_header wst nib fid = (bytes, { wst with lastWriteFieldId := fid }) ∧
      ∀ (rst : Compact.CInState) tail,
        rst.lastReadFieldId = wst.lastWriteFieldId →
        rst.input = bytes ++ tail →
        Compact.read_field_begin rst =
          (.ok ⟨T, some fid⟩,
            { rst with
              input := tail
              lastReadFieldId := fid
              pendingReadBoolValue := pendUpd nib rst.pendingReadBoolValue }) := by
  by_cases hshort : 0 < toI16 (fid - wst.lastWriteFieldId) ∧ toI16 (fid - wst.lastWriteFieldId) < 15
  · refine ⟨[(toI16 (fid - wst.lastWriteFieldId)).toNat <<< 4 ||| nib], ?_, ?_⟩
    · simp only [Compact.write_field_header]
      rw [if_pos hshort]
    · intro rst tail hsync hin
      obtain ⟨rl, rs, rp, ri, rc, rd⟩ := rst
      simp only at hsync hin
      subst hsync
      subst hin
      have hdlt : (toI16 (fid - wst.lastWriteFieldId)).toNat < 16 := by omega
      obtain ⟨hhi, hlo⟩ :=
        nibble_unpack ((toI16 (fid - wst.lastWriteFieldId)).toNat) hdlt nib hn
      have hnz : (toI16 (fid - wst.lastWriteFieldId)).toNat ≠ 0 := by omega
      have hnew : toI16 (wst.lastWriteFieldId +
          (((toI16 (fid - wst.lastWriteFieldId)).toNat : Nat) : Int)) = fid := by
        rw [Int.toNat_of_nonneg (by omega), toI16_add_toI16]
        have harith : wst.lastWriteFieldId + (fid - wst.lastWriteFieldId) = fid := by ring
        rw [harith, toI16_of_idOK hf]
      unfold Compact.read_field_begin
      simp only [List.singleton_append, hhi, hlo]
      by_cases hn1 : nib = 1
      · subst hn1
        have hTb : TType.bool = T := Except.ok.inj hT
        subst hTb
        simp [pendUpd, hnz, hnew]
        unfold idOK at hf hw
        unfold toI16 at hshort ⊢
        omega
      · by_cases hn2 : nib = 2
        · subst hn2
          have hTb : TType.bool = T := Except.ok.inj hT
          subst hTb
          simp [pendUpd, hnz, hnew]
          unfold idOK at hf hw
          unfold toI16 at hshort ⊢
          omega
        · rw [if_neg hn1, if_neg hn2] at hT
          simp [pendUpd, hn1, hn2, hT, hTs, hnz, hnew]
          unfold idOK at hf hw
          unfold toI16 at hshort ⊢
          omega
  · refine ⟨nib :: varintEnc (zigzag fid), ?_, ?_⟩
    · simp only [Compact.write_field_header]
      rw [if_neg hshort]
    · intro rst tail hsync hin
      obtain ⟨rl, rs, rp, ri, rc, rd⟩ := rst
      simp only at hsync hin
      subst hsync
      subst hin
      obtain ⟨hz, hself⟩ := nibble_alone nib hn
      unfold Compact.read_field_begin
      simp only [List.cons_append, hz, hself]
      by_cases hn1 : nib = 1
      · subst hn1
        have hTb : TType.bool = T := Except.ok.inj hT
        subst hTb
        simp [pendUpd, varintDec_varintEnc, unzigzag_zigzag]
      · by_cases hn2 : nib = 2
        · subst hn2
          have hTb : TType.bool = T := Except.ok.inj hT
          subst hTb
          simp [pendUpd, varintDec_varintEnc, unzigzag_zigzag]
        · rw [if_neg hn1, if_neg hn2] at hT
          simp [pendUpd, hn1, hn2, hT, hTs, varintDec_varintEnc, unzigzag_zigzag]

/-- Header roundtrip specialised to a scalar nibble (3..13): the
decoder's pending-bool slot is untouched. -/
theorem field_header_roundtrip_scalar (wst : Compact.CWriteSt) (nib : Nat) (fid : Int)
    (T : TType) (h3 : 3 ≤ nib) (h13 : nib ≤ 13)
    (hu : Compact.u8_to_type nib = .ok T) (hTs : T ≠ .stop)
    (hw : idOK wst.lastWriteFieldId) (hf : idOK fid) :
    ∃ bytes,
      Compact.write_field_header wst nib fid = (bytes, { wst with lastWriteFieldId := fid }) ∧
      ∀ (rst : Compact.CInState) tail,
        rst.lastReadFieldId = wst.lastWriteFieldId →
        rst.input = bytes ++ tail →
        Compact.read_field_begin rst =
          (.ok ⟨T, some fid⟩, { rst with input := tail, lastReadFieldId := fid }) := by
  obtain ⟨bytes, h1, h2⟩ := field_header_roundtrip wst nib fid T (by omega) (by omega)
    (by rw [if_neg (by omega), if_neg (by omega)]; exact hu) hTs hw hf
  refine ⟨bytes, h1, fun rst tail hs hi => ?_⟩
  rw [h2 rst tail hs hi]
  simp [pendUpd, show ¬ nib = 1 by omega, show ¬ nib = 2 by omega]

/-- Header roundtrip specialised to a bool field: the nibble carries the
value and the decoder parks it in the pending-bool slot. -/
theorem field_header_roundtrip_bool (wst : Compact.CWriteSt) (v : Bool) (fid : Int)
    (hw : idOK wst.lastWriteFieldId) (hf : idOK fid) :
    ∃ bytes,
      Compact.write_field_header wst (if v then 0x01 else 0x02) fid =
        (bytes, { wst with lastWriteFieldId := fid }) ∧
      ∀ (rst : Compact.CInState) tail,
        rst.lastReadFieldId = wst.lastWriteFieldId →
        rst.input = bytes ++ tail →
        Compact.read_field_begin rst =
          (.ok ⟨.bool, some fid⟩,
            { rst with
              input := tail
              lastReadFieldId := fid
              pendingReadBoolValue := some v }) := by
  cases v
  · obtain ⟨bytes, h1, h2⟩ := field_header_roundtrip wst 2 fid .bool
      (by decide) (by decide) rfl (by decide) hw hf
    refine ⟨bytes, by simpa using h1, fun rst tail hs hi => ?_⟩
    rw [h2 rst tail hs hi]
    simp [pendUpd]
  · obtain ⟨bytes, h1, h2⟩ := field_header_roundtrip wst 1 fid .bool
      (by decide) (by decide) rfl (by decide) hw hf
    refine ⟨bytes, by simpa using h1, fun rst tail hs hi => ?_⟩
    rw [h2 rst tail hs hi]
    simp [pendUpd]

/-- Round-trip of a compact struct body: encoding a valid field forest
from any encoder state with no pending bool succeeds, leaves the field-id
stack untouched, and the produced bytes followed by a Stop byte decode —
from any decoder state whose last read field id agrees with the encoder's
last written one — to exactly the same forest, consuming exactly those
bytes and leaving the decoder's stack, depth, pending slot and
configuration untouched while its last read field id tracks the
encoder's. -/
theorem encdec_forest (fuel : Nat) :
    ∀ (ts : FieldForest) (wst : Compact.CWriteSt),
      validForest ts = true →
      idOK wst.lastWriteFieldId →
      wst.pendingWriteBoolFieldIdentifier = none →
      needFuelF ts < fuel →
      ∃ bytes wst',
        Compact.encForest wst ts = some (bytes, wst') ∧
        wst'.pendingWriteBoolFieldIdentifier = none ∧
        wst'.writeFieldIdStack = wst.writeFieldIdStack ∧
        idOK wst'.lastWriteFieldId ∧
        ∀ (rst : Compact.CInState) tail,
          rst.lastReadFieldId = wst.lastWriteFieldId →
          rst.pendingReadBoolValue = none →
          rst.config.maxRecursionDepth = none →
          rst.input = bytes ++ (0x00 :: tail) →
          Compact.decForest fuel rst =
            (.ok ts, { rst with input := tail, lastReadFieldId := wst'.lastWriteFieldId }) := by
  induction fuel with
  | zero => intro ts wst _ _ _ hfuel; omega
  | succ fuel ih =>
    intro ts wst hval hw hpend hfuel
    cases ts with
    | nil =>
      refine ⟨[], wst, rfl, hpend, rfl, hw, ?_⟩
      intro rst tail hsync hrp hrc hin
      simp only [List.nil_append] at hin
      obtain ⟨rl, rs, rp, ri, rc, rd⟩ := rst
      simp only at hsync hrp hrc hin
      subst hsync
      subst hrp
      subst hin
      simp only [Compact.decForest]
      unfold Compact.read_field_begin
      simp [Compact.u8_to_type]
    | cons f fs =>
      cases f with
      | scalar t id =>
        simp only [validForest, validTree, Bool.and_eq_true, decide_eq_true_eq] at hval
        obtain ⟨⟨hsc, hid⟩, hvfs⟩ := hval
        obtain ⟨nib, htab, hu, h3, h13, hTstop, hTbool, hTstruct⟩ := scalar_type_facts t hsc
        obtain ⟨bH, hwrite, hdec⟩ :=
          field_header_roundtrip_scalar wst nib id t h3 h13 hu hTstop hw hid
        obtain ⟨bR, wst', henc2, hp', hs', hid', hdec2⟩ :=
          ih fs { wst with lastWriteFieldId := id } hvfs hid hpend
            (by simp only [needFuelF, needFuelT] at hfuel ⊢; omega)
        have hwfb : Compact.write_field_begin wst t (some id) =
            some (bH, { wst with lastWriteFieldId := id }) := by
          unfold Compact.write_field_begin
          rw [if_neg hTbool]
          simp only [htab]
          rw [hwrite]
        have hwfe : Compact.write_field_end { wst with lastWriteFieldId := id } =
            some ([], { wst with lastWriteFieldId := id }) := by
          unfold Compact.write_field_end
          simp [hpend]
        have henc : Compact.encForest wst (.cons (.scalar t id) fs) =
            some ((bH ++ []) ++ bR, wst') := by
          simp only [Compact.encForest, Compact.encTree, hwfb, hwfe, henc2]
        refine ⟨(bH ++ []) ++ bR, wst', henc, hp', hs', hid', ?_⟩
        intro rst tail hsync hrp hrc hin
        have hin' : rst.input = bH ++ (bR ++ (0x00 :: tail)) := by
          rw [hin]; simp [List.append_assoc]
        have hrfb := hdec rst (bR ++ (0x00 :: tail)) hsync hin'
        simp only [Compact.decForest]
        rw [hrfb]
        simp only [hTstop, hTbool, hTstruct, if_neg, reduceIte]
        rw [hdec2 { rst with input := bR ++ (0x00 :: tail), lastReadFieldId := id }
          tail rfl hrp hrc rfl]
        simp
      | boolField v id =>
        simp only [validForest, validTree, Bool.and_eq_true, decide_eq_true_eq] at hval
        obtain ⟨hid, hvfs⟩ := hval
        obtain ⟨bH, hwrite, hdec⟩ := field_header_roundtrip_bool
          { wst with pendingWriteBoolFieldIdentifier := none } v id hw hid
        obtain ⟨bR, wst', henc2, hp', hs', hid', hdec2⟩ :=
          ih fs { wst with
              lastWriteFieldId := id
              pendingWriteBoolFieldIdentifier := none }
            hvfs hid rfl
            (by simp only [needFuelF, needFuelT] at hfuel ⊢; omega)
        have hwfb : Compact.write_field_begin wst .bool (some id) =
            some ([], { wst with pendingWriteBoolFieldIdentifier := some (some id) }) := by
          unfold Compact.write_field_begin
          simp [hpend]
        have hwb : Compact.write_bool
            { wst with pendingWriteBoolFieldIdentifier := some (some id) } v =
            some (bH, { wst with
              lastWriteFieldId := id
              pendingWriteBoolFieldIdentifier := none }) := by
          unfold Compact.write_bool
          simp only []
          rw [hwrite]
        have hwfe : Compact.write_field_end
            { wst with
              lastWriteFieldId := id
              pendingWriteBoolFieldIdentifier := none } =
            some ([], { wst with
              lastWriteFieldId := id
              pendingWriteBoolFieldIdentifier := none }) := by
          unfold Compact.write_field_end
          simp
        have henc : Compact.encForest wst (.cons (.boolField v id) fs) =
            some ((([] ++ bH) ++ []) ++ bR, wst') := by
          simp only [Compact.encForest, Compact.encTree, hwfb, hwb, hwfe, henc2]
        refine ⟨(([] ++ bH) ++ []) ++ bR, wst', henc, hp', hs', hid', ?_⟩
        intro rst tail hsync hrp hrc hin
        have hin' : rst.input = bH ++ (bR ++ (0x00 :: tail)) := by
          rw [hin]; simp [List.append_assoc]
        have hrfb := hdec rst (bR ++ (0x00 :: tail)) hsync hin'
        simp only [Compact.decForest]
        rw [hrfb]
        simp only [reduceIte]
        rw [if_neg (show ¬ (TType.bool = TType.stop) by decide)]
        have hrb : Compact.read_bool
            { rst with
              input := bR ++ (0x00 :: tail)
              lastReadFieldId := id
              pendingReadBoolValue := some v } =
            (.ok v, { rst with
              input := bR ++ (0x00 :: tail)
              lastReadFieldId := id
              pendingReadBoolValue := none }) := by
          unfold Compact.read_bool
          simp only []
        rw [hrb]
        simp only [Option.getD_some]
        rw [hdec2 { rst with
          input := bR ++ (0x00 :: tail)
          lastReadFieldId := id
          pendingReadBoolValue := none } tail rfl rfl hrc rfl]
        simp [hrp]
      | nested id gs =>
        simp only [validForest, validTree, Bool.and_eq_true, decide_eq_true_eq] at hval
        obtain ⟨⟨hid, hvgs⟩, hvfs⟩ := hval
        obtain ⟨bH, hwrite, hdec⟩ :=
          field_header_roundtrip_scalar wst 0x0C id .struct (by omega) (by omega) rfl
            (by decide) hw hid
        have hwfb : Compact.write_field_begin wst .struct (some id) =
            some (bH, { wst with lastWriteFieldId := id }) := by
          unfold Compact.write_field_begin
          rw [if_neg (by decide)]
          simp only [Compact.type_to_u8]
          rw [hwrite]
        obtain ⟨bI, wstI, hencI, hpI, hsI, hidI, hdecI⟩ :=
          ih gs { wst with
              lastWriteFieldId := 0
              writeFieldIdStack := id :: wst.writeFieldIdStack }
            hvgs (show idOK (0 : Int) from by decide) hpend
            (by simp only [needFuelF, needFuelT] at hfuel ⊢; omega)
        have hwfsp : Compact.write_field_stop wstI = some ([0x00], wstI) := by
          unfold Compact.write_field_stop
          simp [hpI]
        have hwse : Compact.write_struct_end wstI =
            some ([], { wstI with lastWriteFieldId := id, writeFieldIdStack := wst.writeFieldIdStack }) := by
          unfold Compact.write_struct_end
          rw [if_neg (by simp [hpI])]
          simp only [hsI]
        obtain ⟨bR, wst', hencR, hp', hs', hid', hdecR⟩ :=
          ih fs { wstI with lastWriteFieldId := id, writeFieldIdStack := wst.writeFieldIdStack }
            hvfs hid hpI
            (by simp only [needFuelF, needFuelT] at hfuel ⊢; omega)
        have hwfe2 : Compact.write_field_end
            { wstI with lastWriteFieldId := id, writeFieldIdStack := wst.writeFieldIdStack } =
            some ([], { wstI with lastWriteFieldId := id, writeFieldIdStack := wst.writeFieldIdStack }) := by
          unfold Compact.write_field_end
          simp [hpI]
        have henc : Compact.encForest wst (.cons (.nested id gs) fs) =
            some ((bH ++ [] ++ bI ++ [0x00] ++ [] ++ []) ++ bR, wst') := by
          simp only [Compact.encForest, Compact.encTree, Compact.write_struct_begin,
            hwfb, hencI, hwfsp, hwse, hwfe2, hencR]
        refine ⟨(bH ++ [] ++ bI ++ [0x00] ++ [] ++ []) ++ bR, wst', henc, hp',
          by rw [hs'], hid', ?_⟩
        intro rst tail hsync hrp hrc hin
        have hin' : rst.input = bH ++ (bI ++ (0x00 :: (bR ++ (0x00 :: tail)))) := by
          rw [hin]; simp [List.append_assoc]
        have hrfb := hdec rst (bI ++ (0x00 :: (bR ++ (0x00 :: tail)))) hsync hin'
        have hrsb : Compact.read_struct_begin
            { rst with
              input := bI ++ (0x00 :: (bR ++ (0x00 :: tail)))
              lastReadFieldId := id
              pendingReadBoolValue := none } =
            (.ok (), { rst with
              input := bI ++ (0x00 :: (bR ++ (0x00 :: tail)))
              lastReadFieldId := 0
              pendingReadBoolValue := none
              readFieldIdStack := id :: rst.readFieldIdStack
              recursionDepth := rst.recursionDepth + 1 }) := by
          unfold Compact.read_struct_begin Compact.check_recursion_depth
          simp [hrc]
        have hdecIa := hdecI
          { rst with
            input := bI ++ (0x00 :: (bR ++ (0x00 :: tail)))
            lastReadFieldId := 0
            pendingReadBoolValue := none
            readFieldIdStack := id :: rst.readFieldIdStack
            recursionDepth := rst.recursionDepth + 1 }
          (bR ++ (0x00 :: tail)) rfl rfl hrc rfl
        have hrse : Compact.read_struct_end
            { rst with
              input := bR ++ (0x00 :: tail)
              lastReadFieldId := wstI.lastWriteFieldId
              pendingReadBoolValue := none
              readFieldIdStack := id :: rst.readFieldIdStack
              recursionDepth := rst.recursionDepth + 1 } =
            (.ok (), { rst with
              input := bR ++ (0x00 :: tail)
              lastReadFieldId := id
              pendingReadBoolValue := none }) := by
          unfold Compact.read_struct_end
          simp
        have hdecRa := hdecR
          { rst with
            input := bR ++ (0x00 :: tail)
            lastReadFieldId := id
            pendingReadBoolValue := none } tail rfl rfl hrc rfl
        simp only [Compact.decForest]
        rw [hrfb]
        simp [hrsb, hdecIa, hrse, hdecRa, hrp,
          (show TType.struct ≠ TType.stop by decide),
          (show TType.struct ≠ TType.bool by decide)]

/-- C3 (confirmed): encoding any valid struct (nested structs included)
with the compact encoder succeeds and restores the encoder state
completely — the last written field id and the field-id stack come back
to their values from before `write_struct_begin` — and decoding the
produced bytes yields exactly the same fields, every `(type, id)` pair
included, while restoring the decoder's last read field id, field-id
stack and recursion depth to their values from before
`read_struct_begin`. -/
theorem compact_struct_roundtrip (ts : FieldForest) (wst : Compact.CWriteSt) (fuel : Nat)
    (hval : validForest ts = true)
    (hpend : wst.pendingWriteBoolFieldIdentifier = none)
    (hfuel : needFuelF ts < fuel) :
    ∃ bytes,
      Compact.encodeStruct wst ts = some (bytes, wst) ∧
      ∀ (rst : Compact.CInState) tail,
        rst.pendingReadBoolValue = none →
        rst.config.maxRecursionDepth = none →
        rst.input = bytes ++ tail →
        Compact.decodeStruct fuel rst = (.ok ts, { rst with input := tail }) := by
  obtain ⟨wl, wstk, wp⟩ := wst
  simp only at hpend
  subst hpend
  obtain ⟨bI, wstI, hencI, hpI, hsI, hidI, hdecI⟩ :=
    encdec_forest fuel ts ⟨0, wl :: wstk, none⟩ hval (show idOK (0 : Int) from by decide) rfl hfuel
  have hwfsp : Compact.write_field_stop wstI = some ([0x00], wstI) := by
    unfold Compact.write_field_stop
    simp [hpI]
  have hwse : Compact.write_struct_end wstI = some ([], ⟨wl, wstk, none⟩) := by
    unfold Compact.write_struct_end
    rw [if_neg (by simp [hpI])]
    simp only at hsI
    simp only [hsI]
    have : wstI.pendingWriteBoolFieldIdentifier = none := hpI
    rw [← this]
  have henc : Compact.encodeStruct ⟨wl, wstk, none⟩ ts =
      some ([] ++ bI ++ [0x00] ++ [], ⟨wl, wstk, none⟩) := by
    simp only [Compact.encodeStruct, Compact.write_struct_begin, hencI, hwfsp, hwse]
  refine ⟨[] ++ bI ++ [0x00] ++ [], henc, ?_⟩
  intro rst tail hrp hrc hin
  have hin' : rst.input = bI ++ (0x00 :: tail) := by
    rw [hin]; simp [List.append_assoc]
  have hrsb : Compact.read_struct_begin
      { rst with pendingReadBoolValue := none } =
      (.ok (), { rst with
        lastReadFieldId := 0
        pendingReadBoolValue := none
        readFieldIdStack := rst.lastReadFieldId :: rst.readFieldIdStack
        recursionDepth := rst.recursionDepth + 1 }) := by
    unfold Compact.read_struct_begin Compact.check_recursion_depth
    simp [hrc]
  have hdecIa := hdecI
    { rst with
      lastReadFieldId := 0
      pendingReadBoolValue := none
      readFieldIdStack := rst.lastReadFieldId :: rst.readFieldIdStack
      recursionDepth := rst.recursionDepth + 1 }
    tail rfl rfl hrc (by simp only []; exact hin')
  have hrse : Compact.read_struct_end
      { rst with
        input := tail
        lastReadFieldId := wstI.lastWriteFieldId
        pendingReadBoolValue := none
        readFieldIdStack := rst.lastReadFieldId :: rst.readFieldIdStack
        recursionDepth := rst.recursionDepth + 1 } =
      (.ok (), { rst with input := tail, pendingReadBoolValue := none }) := by
    unfold Compact.read_struct_end
    simp
  unfold Compact.decodeStruct
  rw [show rst = { rst with pendingReadBoolValue := none } by
    rw [← hrp]]
  rw [hrsb]
  simp [hdecIa, hrse, hrp]

/-- A sample struct body: an I32 field, a nested struct holding one bool
field, then an I64 field. -/
def sampleForest : FieldForest :=
  .cons (.scalar .i32 1)
    (.cons (.nested 2 (.cons (.boolField true 1) .nil))
      (.cons (.scalar .i64 3) .nil))

/-- C3 witness: the sample struct encodes from a fresh encoder to the
bytes 15 1C 11 00 16 00 and decodes back to itself, restoring all codec
state. -/
theorem compact_struct_roundtrip_witness :
    ∃ bytes, Compact.encodeStruct Compact.initWriteSt sampleForest =
        some (bytes, Compact.initWriteSt) ∧
      bytes = [0x15, 0x1C, 0x11, 0x00, 0x16, 0x00] ∧
      Compact.decodeStruct 10 ⟨5, [], none, [0x15, 0x1C, 0x11, 0x00, 0x16, 0x00], noLimits, 0⟩ =
        (.ok sampleForest, ⟨5, [], none, [], noLimits, 0⟩) := by
  obtain ⟨bytes, h1, h2⟩ :=
    compact_struct_roundtrip sampleForest Compact.initWriteSt 10 (by decide) rfl (by decide)
  have hb : bytes = [0x15, 0x1C, 0x11, 0x00, 0x16, 0x00] := by
    have h' : some (bytes, Compact.initWriteSt) =
        some (([0x15, 0x1C, 0x11, 0x00, 0x16, 0x00] : List Nat), Compact.initWriteSt) :=
      h1.symm.trans (by rfl)
    simpa using h'
  refine ⟨bytes, h1, hb, ?_⟩
  have := h2 ⟨5, [], none, [0x15, 0x1C, 0x11, 0x00, 0x16, 0x00], noLimits, 0⟩ [] rfl rfl
    (by rw [hb]; rfl)
  simpa using this

end Thrift
